import Mathlib

/-!
Verification of the ghost-auth trust core against its specification.

The definitions below are a shallow embedding of the Rust sources:

* `src-tauri/src/storage.rs` — the vault store (`Account`, `Tombstone`,
  `Storage` mutating operations, tombstone pruning on save, `load_payload`);
* `src-tauri/src/backup.rs`  — the password-encrypted backup codec
  (`export_accounts`, `import_accounts`);
* `src-tauri/src/sync.rs`    — the sync-code key derivation
  (`SyncSession::key_from_code`) and the three-way merge engine (`merge`).

Machine integers (`u64`, `u32`, `usize`) are modelled as `Nat`: every value
involved is a seconds-since-epoch timestamp, a length, or a counter, and no
arithmetic in the modelled code can overflow 64 bits in any reachable state;
the only subtraction (`saturating_sub`) is modelled by truncated `Nat`
subtraction, which has exactly the saturating semantics.

Cryptographic primitives (AES-256-GCM, Argon2id, HMAC-SHA256) and JSON
serialization are not re-implemented; the embedded functions take them as
explicit function parameters, and theorems assume only standard functional
properties of them (e.g. decrypt ∘ encrypt = id at the relevant point).
Rust `HashMap` construction from an iterator keeps the *last* value written
for a duplicated key; lookups are therefore modelled by `find?` on the
reversed list.  `HashMap` iteration order is unspecified in Rust; the model
fixes one order for the remote-tombstone loop, and every theorem about that
loop is membership-level, hence insensitive to the chosen order.
-/

-- ═══════════════════════ Data model (storage.rs) ═══════════════════════

/-- `storage.rs` `Account`: one TOTP credential record.  Timestamps are
seconds since the epoch (`u64`, modelled as `Nat`). -/
structure Account where
  id : String
  issuer : String
  label : String
  secret : String
  algorithm : String
  digits : Nat
  period : Nat
  icon : Option String
  last_modified : Nat
deriving DecidableEq, Repr

/-- `storage.rs` `Tombstone`: a record that `id` was deleted at `deleted_at`. -/
structure Tombstone where
  id : String
  deleted_at : Nat
deriving DecidableEq, Repr

-- ═══════════════════════ Merge engine (sync.rs) ═══════════════════════

/-- `sync.rs` `MergeConflict`: both devices changed the same account. -/
structure MergeConflict where
  local_acct : Account
  remote : Account
deriving DecidableEq, Repr

/-- `sync.rs` `MergeResult`: the four output lists plus the `unchanged`
counter produced by `merge`. -/
structure MergeResult where
  to_add : List Account
  conflicts : List MergeConflict
  remote_deletions : List Account
  auto_updated : List Account
  unchanged : Nat
deriving DecidableEq, Repr

/-- Lookup in a Rust `HashMap` that was collected from an iterator over the
list: a duplicated key keeps the value inserted last, so the lookup is
`find?` on the reversed list.  Models `local_map.get(id)` in `merge`. -/
def lookupLastAccount (l : List Account) (i : String) : Option Account :=
  l.reverse.find? (fun a => a.id == i)

/-- Models `local_tombstone_set.get(id)` / `remote_tombstone_set.get(id)`:
`HashMap` collected from the tombstone list, duplicated ids keep the last
`deleted_at`. -/
def lookupLastTomb (ts : List Tombstone) (i : String) : Option Nat :=
  (ts.reverse.find? (fun t => t.id == i)).map Tombstone.deleted_at

/-- The guard `if let Some(&deleted_at) = local_tombstone_set.get(remote.id)
{ deleted_at >= remote.last_modified }` at the top of the merge loop. -/
def tombBlocks (local_tombstones : List Tombstone) (remote : Account) : Bool :=
  match lookupLastTomb local_tombstones remote.id with
  | some deleted_at => decide (remote.last_modified ≤ deleted_at)
  | none => false

/-- The class the merge loop assigns to one remote account. -/
inductive MergeClass where
  | unchanged : MergeClass
  | toAdd : MergeClass
  | conflict : Account → MergeClass
  | autoUpdated : MergeClass
deriving DecidableEq, Repr

/-- The decision made by the body of the `for remote in remote_accounts`
loop of `sync.rs::merge` (lines 272–303), translated branch for branch:
tombstone guard, then the `local_map` lookup, then timestamp equality,
conflict gate `local.last_modified > last_sync && remote.last_modified >
last_sync && last_sync > 0`, then `remote.last_modified >
local.last_modified`. -/
def mergeClassify (local_accounts : List Account) (local_tombstones : List Tombstone)
    (last_sync : Nat) (remote : Account) : MergeClass :=
  if tombBlocks local_tombstones remote then
    .unchanged
  else
    match lookupLastAccount local_accounts remote.id with
    | some l =>
      if l.last_modified = remote.last_modified then
        .unchanged
      else if last_sync < l.last_modified ∧ last_sync < remote.last_modified ∧ 0 < last_sync then
        .conflict l
      else if l.last_modified < remote.last_modified then
        .autoUpdated
      else
        .unchanged
    | none => .toAdd

/-- Push the classified account onto the accumulators
`(to_add, conflicts, auto_updated, unchanged)` exactly as the corresponding
branch of the Rust loop body does. -/
def classCons (remote : Account)
    (acc : List Account × List MergeConflict × List Account × Nat) :
    MergeClass → List Account × List MergeConflict × List Account × Nat
  | .unchanged => (acc.1, acc.2.1, acc.2.2.1, acc.2.2.2 + 1)
  | .toAdd => (remote :: acc.1, acc.2.1, acc.2.2.1, acc.2.2.2)
  | .conflict l => (acc.1, ⟨l, remote⟩ :: acc.2.1, acc.2.2.1, acc.2.2.2)
  | .autoUpdated => (acc.1, acc.2.1, remote :: acc.2.2.1, acc.2.2.2)

/-- One iteration of the account loop of `sync.rs::merge`: classify, then
push.  The element processed first contributes first to each output list,
so the whole loop is a `foldr` with this step. -/
def mergeStep (local_accounts : List Account) (local_tombstones : List Tombstone)
    (last_sync : Nat) (remote : Account)
    (acc : List Account × List MergeConflict × List Account × Nat) :
    List Account × List MergeConflict × List Account × Nat :=
  classCons remote acc (mergeClassify local_accounts local_tombstones last_sync remote)

/-- The ids iterated by the `for (id, &deleted_at) in &remote_tombstone_set`
loop: each distinct id of `remote_tombstones`, once.  (Rust `HashMap`
iteration order is unspecified; all theorems below are membership-level.) -/
def remoteTombKeys (remote_tombstones : List Tombstone) : List String :=
  (remote_tombstones.map Tombstone.id).dedup

/-- `sync.rs::merge`, lines 243–322: the three-way merge of local state with
a decrypted remote payload. -/
def merge (local_accounts : List Account) (local_tombstones : List Tombstone)
    (remote_accounts : List Account) (remote_tombstones : List Tombstone)
    (last_sync_with_peer : Option Nat) : MergeResult :=
  let last_sync := last_sync_with_peer.getD 0
  let (ta, cf, au, un) :=
    remote_accounts.foldr (mergeStep local_accounts local_tombstones last_sync)
      ([], [], [], 0)
  let rd := (remoteTombKeys remote_tombstones).filterMap (fun i =>
    match lookupLastAccount local_accounts i with
    | some l =>
      match lookupLastTomb remote_tombstones i with
      | some deleted_at => if l.last_modified < deleted_at then some l else none
      | none => none
    | none => none)
  { to_add := ta, conflicts := cf, remote_deletions := rd,
    auto_updated := au, unchanged := un }

-- ── Spec-side classification (§4.6 rules 1–6, for the refinement claim) ──

/-- Spec §4.6 rule 4 gate: "W is set (>0) and both ℓ.last_modified > W and
r.last_modified > W". -/
def specConflictGate (w : Option Nat) (llm rlm : Nat) : Bool :=
  match w with
  | some ws => decide (0 < ws) && decide (ws < llm) && decide (ws < rlm)
  | none => false

/-- Modelled from the spec, §4.6 rules 1–6 (not from the code): the class of
one remote account `r`.  Rule 1 reads "T_L contains (r.id, t_del) with
t_del ≥ r.last_modified" as an existential over the tombstone list; rules
2–6 use "the" local counterpart, read as the first list entry with that id
(unambiguous whenever ids are unique). -/
def specClassify (local_accounts : List Account) (local_tombstones : List Tombstone)
    (w : Option Nat) (r : Account) : MergeClass :=
  if local_tombstones.any (fun t => t.id == r.id && r.last_modified ≤ t.deleted_at) then
    .unchanged
  else
    match local_accounts.find? (fun a => a.id == r.id) with
    | none => .toAdd
    | some l =>
      if l.last_modified = r.last_modified then .unchanged
      else if specConflictGate w l.last_modified r.last_modified then .conflict l
      else if l.last_modified < r.last_modified then .autoUpdated
      else .unchanged

-- sanity: the embedding reproduces the Rust unit tests of sync.rs

/-- Helper mirroring `make_account` in the sync.rs test module. -/
def mkAcct (i : String) (issuer : String) (lm : Nat) : Account :=
  { id := i, issuer := issuer, label := "test@example.com",
    secret := "JBSWY3DPEHPK3PXP", algorithm := "SHA1", digits := 6,
    period := 30, icon := none, last_modified := lm }

example :
    (merge [mkAcct "a1" "GitHub" 1000] []
      [mkAcct "a1" "GitHub" 1000, mkAcct "a2" "Google" 2000] [] none).to_add
      = [mkAcct "a2" "Google" 2000] := by decide

example :
    (merge [mkAcct "a1" "GitHub" 1000] []
      [mkAcct "a1" "GitHub Updated" 2000] [] none).auto_updated
      = [mkAcct "a1" "GitHub Updated" 2000] := by decide

example :
    (merge [mkAcct "a1" "GitHub Updated" 2000] []
      [mkAcct "a1" "GitHub" 1000] [] none).unchanged = 1 := by decide

example :
    (merge [mkAcct "a1" "GitHub Local" 2000] []
      [mkAcct "a1" "GitHub Remote" 2500] [] (some 1500)).conflicts
      = [⟨mkAcct "a1" "GitHub Local" 2000, mkAcct "a1" "GitHub Remote" 2500⟩] := by
  decide

example :
    (merge [mkAcct "a1" "GitHub Local" 2000] []
      [mkAcct "a1" "GitHub Remote" 2500] [] none).conflicts = [] := by decide

example :
    (merge [mkAcct "a1" "GitHub" 1000] [] [] [⟨"a1", 2000⟩] none).remote_deletions
      = [mkAcct "a1" "GitHub" 1000] := by decide

example :
    (merge [mkAcct "a1" "GitHub" 3000] [] [] [⟨"a1", 2000⟩] none).remote_deletions
      = [] := by decide

example :
    (merge [] [⟨"a1", 2000⟩] [mkAcct "a1" "GitHub" 1000] [] none).to_add = [] := by
  decide

example :
    (merge [] [⟨"a1", 1000⟩] [mkAcct "a1" "GitHub" 2000] [] none).to_add
      = [mkAcct "a1" "GitHub" 2000] := by decide

-- ═══════════ Shared lemmas about the merge account loop ═══════════

/-- With at most one tombstone per id, the code's last-wins tombstone guard
agrees with the spec's existential reading of rule 1. -/
theorem tombBlocks_eq_any (T : List Tombstone) (r : Account)
    (hT : (T.map Tombstone.id).Nodup) :
    tombBlocks T r
      = T.any (fun t => t.id == r.id && r.last_modified ≤ t.deleted_at) := by
  unfold tombBlocks lookupLastTomb
  cases hfind : T.reverse.find? (fun t => t.id == r.id) with
  | none =>
    rw [List.find?_eq_none] at hfind
    simp only [Option.map_none']
    symm
    rw [List.any_eq_false]
    intro t ht
    simp only [Bool.and_eq_true, beq_iff_eq, decide_eq_true_eq, not_and]
    intro hid
    exact absurd (by simpa using hid) (by simpa using hfind t (List.mem_reverse.mpr ht))
  | some t0 =>
    have hmem : t0 ∈ T := List.mem_reverse.mp (List.mem_of_find?_eq_some hfind)
    have hid : t0.id = r.id := by simpa using List.find?_some hfind
    simp only [Option.map_some']
    by_cases hle : r.last_modified ≤ t0.deleted_at
    · simp only [decide_eq_true hle]
      symm
      rw [List.any_eq_true]
      exact ⟨t0, hmem, by simp [hid, hle]⟩
    · simp only [decide_eq_false hle]
      symm
      rw [List.any_eq_false]
      intro t ht
      simp only [Bool.and_eq_true, beq_iff_eq, decide_eq_true_eq, not_and]
      intro hid2 hle2
      have : t = t0 :=
        List.inj_on_of_nodup_map hT ht hmem (by rw [hid2, hid])
      exact hle (this ▸ hle2)

/-- With at most one account per id, the code's last-wins `HashMap` lookup
agrees with the first-match `find?` that the spec's "the local counterpart"
denotes. -/
theorem lookupLastAccount_eq_find (L : List Account) (i : String)
    (hL : (L.map Account.id).Nodup) :
    lookupLastAccount L i = L.find? (fun a => a.id == i) := by
  unfold lookupLastAccount
  cases hfwd : L.find? (fun a => a.id == i) with
  | none =>
    rw [List.find?_eq_none] at hfwd
    rw [List.find?_eq_none]
    intro a ha
    exact hfwd a (List.mem_reverse.mp ha)
  | some a0 =>
    have hmem : a0 ∈ L := List.mem_of_find?_eq_some hfwd
    have hid : a0.id = i := by simpa using List.find?_some hfwd
    cases hrev : L.reverse.find? (fun a => a.id == i) with
    | none =>
      rw [List.find?_eq_none] at hrev
      exact absurd (by simpa using hid)
        (by simpa using hrev a0 (List.mem_reverse.mpr hmem))
    | some a1 =>
      have hmem1 : a1 ∈ L := List.mem_reverse.mp (List.mem_of_find?_eq_some hrev)
      have hid1 : a1.id = i := by simpa using List.find?_some hrev
      have : a1 = a0 := List.inj_on_of_nodup_map hL hmem1 hmem (by rw [hid1, hid])
      rw [this]

/-- With unique ids on the local side, the per-account decision of the code
coincides with the spec's rules 1–6. -/
theorem mergeClassify_eq_specClassify (L : List Account) (T : List Tombstone)
    (w : Option Nat) (r : Account)
    (hL : (L.map Account.id).Nodup) (hT : (T.map Tombstone.id).Nodup) :
    mergeClassify L T (w.getD 0) r = specClassify L T w r := by
  unfold mergeClassify specClassify
  rw [tombBlocks_eq_any T r hT, lookupLastAccount_eq_find L r.id hL]
  cases hfind : L.find? (fun a => a.id == r.id) with
  | none => rfl
  | some l =>
    simp only []
    by_cases heq : l.last_modified = r.last_modified
    · simp [heq]
    · have hgate : ((w.getD 0 < l.last_modified ∧ w.getD 0 < r.last_modified ∧ 0 < w.getD 0)
          ↔ specConflictGate w l.last_modified r.last_modified = true) := by
        cases w with
        | none => simp [specConflictGate]
        | some ws =>
          simp [specConflictGate, Option.getD]
          tauto
      simp only [if_neg heq]
      by_cases hg : specConflictGate w l.last_modified r.last_modified = true
      · rw [if_pos (hgate.mpr hg), if_pos hg]
      · rw [if_neg (fun hc => hg (hgate.mp hc)), if_neg hg]

/-- The result of the account loop, characterised list by list in terms of
the per-account classification. -/
theorem mergeLoop_eq (L : List Account) (T : List Tombstone) (s : Nat)
    (rs : List Account) :
    rs.foldr (mergeStep L T s) ([], [], [], 0)
      = (rs.filter (fun r => mergeClassify L T s r == .toAdd),
         rs.filterMap (fun r =>
           match mergeClassify L T s r with
           | .conflict l => some ⟨l, r⟩
           | _ => none),
         rs.filter (fun r => mergeClassify L T s r == .autoUpdated),
         (rs.filter (fun r => mergeClassify L T s r == .unchanged)).length) := by
  induction rs with
  | nil => rfl
  | cons r rest ih =>
    rw [List.foldr_cons, ih]
    cases hc : mergeClassify L T s r with
    | unchanged => simp [mergeStep, hc, classCons, List.filter_cons, List.filterMap_cons]
    | toAdd => simp [mergeStep, hc, classCons, List.filter_cons, List.filterMap_cons]
    | conflict l => simp [mergeStep, hc, classCons, List.filter_cons, List.filterMap_cons]
    | autoUpdated => simp [mergeStep, hc, classCons, List.filter_cons, List.filterMap_cons]

-- ═══════════════════════ Claim C1 ═══════════════════════

/-- C1 (amended): for every call `merge(L, T_L, R, T_R, W)` in which the
local accounts and the local tombstones carry at most one entry per id,
every remote account is classified exactly by the spec's rules 1–6 in
order: the `to_add`, `conflicts` and `auto_updated` lists are precisely the
remote accounts whose spec classification is `toAdd`, `conflict`
(paired with the local counterpart) and `autoUpdated`, in payload order,
and `unchanged` counts exactly the remote accounts classified `unchanged`. -/
theorem merge_follows_spec_rules (L : List Account) (T_L : List Tombstone)
    (R : List Account) (T_R : List Tombstone) (w : Option Nat)
    (hL : (L.map Account.id).Nodup) (hT : (T_L.map Tombstone.id).Nodup) :
    (merge L T_L R T_R w).to_add
        = R.filter (fun r => specClassify L T_L w r == .toAdd)
    ∧ (merge L T_L R T_R w).conflicts
        = R.filterMap (fun r =>
            match specClassify L T_L w r with
            | .conflict l => some ⟨l, r⟩
            | _ => none)
    ∧ (merge L T_L R T_R w).auto_updated
        = R.filter (fun r => specClassify L T_L w r == .autoUpdated)
    ∧ (merge L T_L R T_R w).unchanged
        = (R.filter (fun r => specClassify L T_L w r == .unchanged)).length := by
  have hcls : ∀ r, mergeClassify L T_L (w.getD 0) r = specClassify L T_L w r :=
    fun r => mergeClassify_eq_specClassify L T_L w r hL hT
  simp only [merge, mergeLoop_eq]
  refine ⟨?_, ?_, ?_, ?_⟩
  · exact List.filter_congr (fun r _ => by rw [hcls r])
  · exact List.filterMap_congr (fun r _ => by rw [hcls r])
  · exact List.filter_congr (fun r _ => by rw [hcls r])
  · exact congrArg List.length (List.filter_congr (fun r _ => by rw [hcls r]))

/-- Witness for C1 at the two-account scenario of the sync.rs tests. -/
theorem merge_follows_spec_rules_witness :
    (merge [mkAcct "a1" "GitHub" 1000] []
        [mkAcct "a1" "GitHub" 1000, mkAcct "a2" "Google" 2000] [] none).to_add
        = [mkAcct "a1" "GitHub" 1000, mkAcct "a2" "Google" 2000].filter
            (fun r => specClassify [mkAcct "a1" "GitHub" 1000] [] none r == .toAdd)
    ∧ (merge [mkAcct "a1" "GitHub" 1000] []
        [mkAcct "a1" "GitHub" 1000, mkAcct "a2" "Google" 2000] [] none).conflicts
        = [mkAcct "a1" "GitHub" 1000, mkAcct "a2" "Google" 2000].filterMap
            (fun r =>
              match specClassify [mkAcct "a1" "GitHub" 1000] [] none r with
              | .conflict l => some ⟨l, r⟩
              | _ => none)
    ∧ (merge [mkAcct "a1" "GitHub" 1000] []
        [mkAcct "a1" "GitHub" 1000, mkAcct "a2" "Google" 2000] [] none).auto_updated
        = [mkAcct "a1" "GitHub" 1000, mkAcct "a2" "Google" 2000].filter
            (fun r => specClassify [mkAcct "a1" "GitHub" 1000] [] none r == .autoUpdated)
    ∧ (merge [mkAcct "a1" "GitHub" 1000] []
        [mkAcct "a1" "GitHub" 1000, mkAcct "a2" "Google" 2000] [] none).unchanged
        = ([mkAcct "a1" "GitHub" 1000, mkAcct "a2" "Google" 2000].filter
            (fun r => specClassify [mkAcct "a1" "GitHub" 1000] [] none r == .unchanged)).length :=
  merge_follows_spec_rules [mkAcct "a1" "GitHub" 1000] []
    [mkAcct "a1" "GitHub" 1000, mkAcct "a2" "Google" 2000] [] none
    (by decide) (by decide)

/-- Counterexample to C1 as stated: with two local tombstones for the same
id — `(a, 100)` then `(a, 5)` — and a remote account `a` with
`last_modified = 50`, rule 1 of the spec applies (the tombstone `(a, 100)`
has `t_del ≥ 50`), so the claim puts the account under `unchanged`; the
code's `HashMap` keeps only the last tombstone `(a, 5)`, so `merge` puts
the account in `to_add` instead. -/
theorem merge_spec_rules_cex :
    (merge [] [⟨"a", 100⟩, ⟨"a", 5⟩] [mkAcct "a" "X" 50] [] none).to_add
        = [mkAcct "a" "X" 50]
    ∧ specClassify [] [⟨"a", 100⟩, ⟨"a", 5⟩] none (mkAcct "a" "X" 50)
        = .unchanged := by decide

-- ═══════ Shared lemmas about remote tombstones and output ids ═══════

/-- An account found by id carries that id. -/
theorem lookupLastAccount_id (L : List Account) (i : String) (a : Account)
    (h : lookupLastAccount L i = some a) : a.id = i := by
  simpa using List.find?_some h

/-- Membership in `remote_deletions`, characterised: `l` is reported as a
remote deletion exactly when some remote tombstone carries its id, `l` is
the account the `local_map` holds under that id, and the last-wins
tombstone value for that id is strictly newer than `l`. -/
theorem mem_remote_deletions_iff (L : List Account) (T_L : List Tombstone)
    (R : List Account) (T_R : List Tombstone) (w : Option Nat) (l : Account) :
    l ∈ (merge L T_L R T_R w).remote_deletions
      ↔ l.id ∈ T_R.map Tombstone.id
        ∧ lookupLastAccount L l.id = some l
        ∧ ∃ d, lookupLastTomb T_R l.id = some d ∧ l.last_modified < d := by
  simp only [merge, List.mem_filterMap]
  constructor
  · rintro ⟨i, hkey, hf⟩
    cases hla : lookupLastAccount L i with
    | none => rw [hla] at hf; exact absurd hf (by simp)
    | some l0 =>
      rw [hla] at hf
      cases htd : lookupLastTomb T_R i with
      | none => rw [htd] at hf; exact absurd hf (by simp)
      | some d =>
        rw [htd] at hf
        simp only [] at hf
        by_cases hlt : l0.last_modified < d
        · rw [if_pos hlt] at hf
          cases hf
          have hid : l.id = i := lookupLastAccount_id L i l hla
          refine ⟨?_, ?_, d, ?_, hlt⟩
          · rw [hid]
            exact (List.mem_dedup.mp hkey)
          · rw [hid]; exact hla
          · rw [hid]; exact htd
        · rw [if_neg hlt] at hf; exact absurd hf (by simp)
  · rintro ⟨hkey, hla, d, htd, hlt⟩
    refine ⟨l.id, List.mem_dedup.mpr hkey, ?_⟩
    rw [hla, htd]
    simp only []
    rw [if_pos hlt]

/-- Inversion: the loop sends a remote account to `to_add` exactly when no
local tombstone blocks it and no local account carries its id. -/
theorem mergeClassify_toAdd_iff (L : List Account) (T : List Tombstone)
    (s : Nat) (r : Account) :
    mergeClassify L T s r = .toAdd
      ↔ tombBlocks T r = false ∧ lookupLastAccount L r.id = none := by
  unfold mergeClassify
  by_cases hb : tombBlocks T r
  · simp [hb]
  · simp only [Bool.not_eq_true] at hb
    rw [if_neg (by simp [hb])]
    cases hla : lookupLastAccount L r.id with
    | none => simp [hb]
    | some l =>
      simp only [hb, true_and]
      constructor
      · intro h
        split at h
        · exact absurd h (by simp)
        · split at h
          · exact absurd h (by simp)
          · split at h
            · exact absurd h (by simp)
            · exact absurd h (by simp)
      · intro h; cases h
/-- Inversion: a conflict entry records the `local_map` account for the
remote's id, distinct timestamps, and both sides strictly past a positive
watermark. -/
theorem mergeClassify_conflict_inv (L : List Account) (T : List Tombstone)
    (s : Nat) (r : Account) (l : Account)
    (h : mergeClassify L T s r = .conflict l) :
    lookupLastAccount L r.id = some l
      ∧ l.last_modified ≠ r.last_modified
      ∧ s < l.last_modified ∧ s < r.last_modified ∧ 0 < s := by
  unfold mergeClassify at h
  split at h
  · exact absurd h (by simp)
  · split at h
    · rename_i l0 hla
      split at h
      · exact absurd h (by simp)
      · split at h
        · rename_i hne hgate
          cases h
          exact ⟨hla, hne, hgate⟩
        · split at h
          · exact absurd h (by simp)
          · exact absurd h (by simp)
    · exact absurd h (by simp)

/-- Inversion: an auto-update records a strictly newer remote over the
`local_map` account, with the conflict gate closed. -/
theorem mergeClassify_auto_inv (L : List Account) (T : List Tombstone)
    (s : Nat) (r : Account)
    (h : mergeClassify L T s r = .autoUpdated) :
    ∃ l, lookupLastAccount L r.id = some l
      ∧ l.last_modified < r.last_modified
      ∧ ¬(s < l.last_modified ∧ s < r.last_modified ∧ 0 < s) := by
  unfold mergeClassify at h
  split at h
  · exact absurd h (by simp)
  · split at h
    · rename_i l0 hla
      split at h
      · exact absurd h (by simp)
      · split at h
        · exact absurd h (by simp)
        · split at h
          · rename_i hne hgate hlt
            exact ⟨l0, hla, hlt, hgate⟩
          · exact absurd h (by simp)
    · exact absurd h (by simp)

/-- Ids in `to_add` come from the remote payload and have no `local_map`
entry. -/
theorem mem_toAdd_ids (L : List Account) (T_L : List Tombstone)
    (R : List Account) (T_R : List Tombstone) (w : Option Nat) (i : String)
    (h : i ∈ (merge L T_L R T_R w).to_add.map Account.id) :
    i ∈ R.map Account.id ∧ lookupLastAccount L i = none := by
  simp only [merge, mergeLoop_eq, List.mem_map] at h
  obtain ⟨a, ha, hid⟩ := h
  rw [List.mem_filter] at ha
  have hcls := (mergeClassify_toAdd_iff L T_L (w.getD 0) a).mp (by simpa using ha.2)
  exact ⟨List.mem_map.mpr ⟨a, ha.1, hid⟩, hid ▸ hcls.2⟩

/-- Ids in `conflicts` come from the remote payload; the `local_map` holds
their local side, which is strictly past a positive watermark. -/
theorem mem_conflict_ids (L : List Account) (T_L : List Tombstone)
    (R : List Account) (T_R : List Tombstone) (w : Option Nat) (i : String)
    (h : i ∈ (merge L T_L R T_R w).conflicts.map (fun c => c.remote.id)) :
    i ∈ R.map Account.id
      ∧ ∃ l, lookupLastAccount L i = some l
          ∧ w.getD 0 < l.last_modified ∧ 0 < w.getD 0 := by
  simp only [merge, mergeLoop_eq, List.mem_map] at h
  obtain ⟨c, hc, hid⟩ := h
  rw [List.mem_filterMap] at hc
  obtain ⟨r, hr, hf⟩ := hc
  cases hcl : mergeClassify L T_L (w.getD 0) r with
  | conflict l =>
    rw [hcl] at hf
    cases hf
    obtain ⟨hla, _, hsl, _, hs⟩ :=
      mergeClassify_conflict_inv L T_L (w.getD 0) r l hcl
    exact ⟨List.mem_map.mpr ⟨r, hr, hid⟩, l, hid ▸ hla, hsl, hs⟩
  | unchanged => rw [hcl] at hf; exact absurd hf (by simp)
  | toAdd => rw [hcl] at hf; exact absurd hf (by simp)
  | autoUpdated => rw [hcl] at hf; exact absurd hf (by simp)

/-- Ids in `auto_updated` come from the remote payload; the `local_map`
holds a strictly older local side and the conflict gate is closed. -/
theorem mem_auto_ids (L : List Account) (T_L : List Tombstone)
    (R : List Account) (T_R : List Tombstone) (w : Option Nat) (i : String)
    (h : i ∈ (merge L T_L R T_R w).auto_updated.map Account.id) :
    i ∈ R.map Account.id
      ∧ ∃ (a l : Account), a.id = i ∧ lookupLastAccount L i = some l
          ∧ l.last_modified < a.last_modified
          ∧ ¬(w.getD 0 < l.last_modified ∧ w.getD 0 < a.last_modified
                ∧ 0 < w.getD 0) := by
  simp only [merge, mergeLoop_eq, List.mem_map] at h
  obtain ⟨a, ha, hid⟩ := h
  rw [List.mem_filter] at ha
  obtain ⟨l, hla, hlt, hgate⟩ :=
    mergeClassify_auto_inv L T_L (w.getD 0) a (by simpa using ha.2)
  exact ⟨List.mem_map.mpr ⟨a, ha.1, hid⟩, a, l, hid, hid ▸ hla, hlt, hgate⟩

/-- Ids in `remote_deletions` come from the remote tombstones and have a
`local_map` entry. -/
theorem mem_rd_ids (L : List Account) (T_L : List Tombstone)
    (R : List Account) (T_R : List Tombstone) (w : Option Nat) (i : String)
    (h : i ∈ (merge L T_L R T_R w).remote_deletions.map Account.id) :
    i ∈ T_R.map Tombstone.id ∧ ∃ l, lookupLastAccount L i = some l := by
  rw [List.mem_map] at h
  obtain ⟨l, hl, hid⟩ := h
  obtain ⟨hkey, hla, _⟩ := (mem_remote_deletions_iff L T_L R T_R w l).mp hl
  exact ⟨hid ▸ hkey, l, hid ▸ hla⟩

-- ═══════════════════════ Claim C8 ═══════════════════════

/-- C8 (amended): whenever no id occurs both among the remote accounts and
among the remote tombstones — as is the case for any remote snapshot
satisfying the vault invariant — the four lists returned by `merge` are
pairwise disjoint by id.  (The claim fails without that proviso, see the
counterexample.) -/
theorem merge_lists_pairwise_disjoint (L : List Account) (T_L : List Tombstone)
    (R : List Account) (T_R : List Tombstone) (w : Option Nat)
    (hsep : ∀ i, i ∈ R.map Account.id → i ∉ T_R.map Tombstone.id) :
    ∀ i : String,
      ¬(i ∈ (merge L T_L R T_R w).to_add.map Account.id
          ∧ i ∈ (merge L T_L R T_R w).conflicts.map (fun c => c.remote.id))
      ∧ ¬(i ∈ (merge L T_L R T_R w).to_add.map Account.id
          ∧ i ∈ (merge L T_L R T_R w).auto_updated.map Account.id)
      ∧ ¬(i ∈ (merge L T_L R T_R w).to_add.map Account.id
          ∧ i ∈ (merge L T_L R T_R w).remote_deletions.map Account.id)
      ∧ ¬(i ∈ (merge L T_L R T_R w).conflicts.map (fun c => c.remote.id)
          ∧ i ∈ (merge L T_L R T_R w).auto_updated.map Account.id)
      ∧ ¬(i ∈ (merge L T_L R T_R w).conflicts.map (fun c => c.remote.id)
          ∧ i ∈ (merge L T_L R T_R w).remote_deletions.map Account.id)
      ∧ ¬(i ∈ (merge L T_L R T_R w).auto_updated.map Account.id
          ∧ i ∈ (merge L T_L R T_R w).remote_deletions.map Account.id) := by
  intro i
  refine ⟨?_, ?_, ?_, ?_, ?_, ?_⟩
  · rintro ⟨hta, hcf⟩
    obtain ⟨_, hnone⟩ := mem_toAdd_ids L T_L R T_R w i hta
    obtain ⟨_, l, hsome, _⟩ := mem_conflict_ids L T_L R T_R w i hcf
    rw [hnone] at hsome
    exact absurd hsome (by simp)
  · rintro ⟨hta, hau⟩
    obtain ⟨_, hnone⟩ := mem_toAdd_ids L T_L R T_R w i hta
    obtain ⟨_, a, l, _, hsome, _⟩ := mem_auto_ids L T_L R T_R w i hau
    rw [hnone] at hsome
    exact absurd hsome (by simp)
  · rintro ⟨hta, hrd⟩
    obtain ⟨_, hnone⟩ := mem_toAdd_ids L T_L R T_R w i hta
    obtain ⟨_, l, hsome⟩ := mem_rd_ids L T_L R T_R w i hrd
    rw [hnone] at hsome
    exact absurd hsome (by simp)
  · rintro ⟨hcf, hau⟩
    obtain ⟨_, lc, hsomec, hslc, hs⟩ := mem_conflict_ids L T_L R T_R w i hcf
    obtain ⟨_, a, la, _, hsomea, hlta, hgate⟩ := mem_auto_ids L T_L R T_R w i hau
    rw [hsomec] at hsomea
    cases hsomea
    have hnas : ¬(w.getD 0 < a.last_modified) := fun has => hgate ⟨hslc, has, hs⟩
    have : a.last_modified ≤ w.getD 0 := Nat.le_of_not_lt hnas
    exact absurd hlta (Nat.not_lt.mpr (le_trans this (Nat.le_of_lt hslc)))
  · rintro ⟨hcf, hrd⟩
    obtain ⟨hR, _⟩ := mem_conflict_ids L T_L R T_R w i hcf
    obtain ⟨hT, _⟩ := mem_rd_ids L T_L R T_R w i hrd
    exact hsep i hR hT
  · rintro ⟨hau, hrd⟩
    obtain ⟨hR, _⟩ := mem_auto_ids L T_L R T_R w i hau
    obtain ⟨hT, _⟩ := mem_rd_ids L T_L R T_R w i hrd
    exact hsep i hR hT

/-- Witness for C8: a merge with an add, an auto-update, a conflict and a
remote deletion, all with distinct ids, instantiated at the conflicting
id `a1`. -/
theorem merge_lists_pairwise_disjoint_witness :
    ¬("a1" ∈ (merge [mkAcct "a1" "L1" 2000, mkAcct "a2" "L2" 1000, mkAcct "a4" "L4" 5000]
            [] [mkAcct "a1" "R1" 2500, mkAcct "a2" "R2" 1600, mkAcct "a3" "R3" 900]
            [⟨"a4", 6000⟩] (some 1500)).to_add.map Account.id
        ∧ "a1" ∈ (merge [mkAcct "a1" "L1" 2000, mkAcct "a2" "L2" 1000, mkAcct "a4" "L4" 5000]
            [] [mkAcct "a1" "R1" 2500, mkAcct "a2" "R2" 1600, mkAcct "a3" "R3" 900]
            [⟨"a4", 6000⟩] (some 1500)).conflicts.map (fun c => c.remote.id))
    ∧ ¬("a1" ∈ (merge [mkAcct "a1" "L1" 2000, mkAcct "a2" "L2" 1000, mkAcct "a4" "L4" 5000]
            [] [mkAcct "a1" "R1" 2500, mkAcct "a2" "R2" 1600, mkAcct "a3" "R3" 900]
            [⟨"a4", 6000⟩] (some 1500)).to_add.map Account.id
        ∧ "a1" ∈ (merge [mkAcct "a1" "L1" 2000, mkAcct "a2" "L2" 1000, mkAcct "a4" "L4" 5000]
            [] [mkAcct "a1" "R1" 2500, mkAcct "a2" "R2" 1600, mkAcct "a3" "R3" 900]
            [⟨"a4", 6000⟩] (some 1500)).auto_updated.map Account.id)
    ∧ ¬("a1" ∈ (merge [mkAcct "a1" "L1" 2000, mkAcct "a2" "L2" 1000, mkAcct "a4" "L4" 5000]
            [] [mkAcct "a1" "R1" 2500, mkAcct "a2" "R2" 1600, mkAcct "a3" "R3" 900]
            [⟨"a4", 6000⟩] (some 1500)).to_add.map Account.id
        ∧ "a1" ∈ (merge [mkAcct "a1" "L1" 2000, mkAcct "a2" "L2" 1000, mkAcct "a4" "L4" 5000]
            [] [mkAcct "a1" "R1" 2500, mkAcct "a2" "R2" 1600, mkAcct "a3" "R3" 900]
            [⟨"a4", 6000⟩] (some 1500)).remote_deletions.map Account.id)
    ∧ ¬("a1" ∈ (merge [mkAcct "a1" "L1" 2000, mkAcct "a2" "L2" 1000, mkAcct "a4" "L4" 5000]
            [] [mkAcct "a1" "R1" 2500, mkAcct "a2" "R2" 1600, mkAcct "a3" "R3" 900]
            [⟨"a4", 6000⟩] (some 1500)).conflicts.map (fun c => c.remote.id)
        ∧ "a1" ∈ (merge [mkAcct "a1" "L1" 2000, mkAcct "a2" "L2" 1000, mkAcct "a4" "L4" 5000]
            [] [mkAcct "a1" "R1" 2500, mkAcct "a2" "R2" 1600, mkAcct "a3" "R3" 900]
            [⟨"a4", 6000⟩] (some 1500)).auto_updated.map Account.id)
    ∧ ¬("a1" ∈ (merge [mkAcct "a1" "L1" 2000, mkAcct "a2" "L2" 1000, mkAcct "a4" "L4" 5000]
            [] [mkAcct "a1" "R1" 2500, mkAcct "a2" "R2" 1600, mkAcct "a3" "R3" 900]
            [⟨"a4", 6000⟩] (some 1500)).conflicts.map (fun c => c.remote.id)
        ∧ "a1" ∈ (merge [mkAcct "a1" "L1" 2000, mkAcct "a2" "L2" 1000, mkAcct "a4" "L4" 5000]
            [] [mkAcct "a1" "R1" 2500, mkAcct "a2" "R2" 1600, mkAcct "a3" "R3" 900]
            [⟨"a4", 6000⟩] (some 1500)).remote_deletions.map Account.id)
    ∧ ¬("a1" ∈ (merge [mkAcct "a1" "L1" 2000, mkAcct "a2" "L2" 1000, mkAcct "a4" "L4" 5000]
            [] [mkAcct "a1" "R1" 2500, mkAcct "a2" "R2" 1600, mkAcct "a3" "R3" 900]
            [⟨"a4", 6000⟩] (some 1500)).auto_updated.map Account.id
        ∧ "a1" ∈ (merge [mkAcct "a1" "L1" 2000, mkAcct "a2" "L2" 1000, mkAcct "a4" "L4" 5000]
            [] [mkAcct "a1" "R1" 2500, mkAcct "a2" "R2" 1600, mkAcct "a3" "R3" 900]
            [⟨"a4", 6000⟩] (some 1500)).remote_deletions.map Account.id) :=
  merge_lists_pairwise_disjoint
    [mkAcct "a1" "L1" 2000, mkAcct "a2" "L2" 1000, mkAcct "a4" "L4" 5000] []
    [mkAcct "a1" "R1" 2500, mkAcct "a2" "R2" 1600, mkAcct "a3" "R3" 900]
    [⟨"a4", 6000⟩] (some 1500) (by decide) "a1"

/-- Counterexample to C8 as stated: when the remote payload carries both an
account `a1` (newer than the local copy) and a tombstone `a1` (newer
still), the id `a1` appears in `auto_updated` and in `remote_deletions`
simultaneously. -/
theorem merge_lists_disjoint_cex :
    (merge [mkAcct "a1" "X" 1000] [] [mkAcct "a1" "X2" 2000] [⟨"a1", 3000⟩]
        none).auto_updated.map Account.id = ["a1"]
    ∧ (merge [mkAcct "a1" "X" 1000] [] [mkAcct "a1" "X2" 2000] [⟨"a1", 3000⟩]
        none).remote_deletions.map Account.id = ["a1"] := by decide

-- ═══════════════════════ Claim C9 ═══════════════════════

/-- With at most one tombstone per id, the last-wins map value of a listed
tombstone is its own `deleted_at`. -/
theorem lookupLastTomb_of_mem_nodup (T : List Tombstone) (t : Tombstone)
    (hT : (T.map Tombstone.id).Nodup) (ht : t ∈ T) :
    lookupLastTomb T t.id = some t.deleted_at := by
  unfold lookupLastTomb
  cases hfind : T.reverse.find? (fun x => x.id == t.id) with
  | none =>
    rw [List.find?_eq_none] at hfind
    have h1 := hfind t (List.mem_reverse.mpr ht)
    simp at h1
  | some t1 =>
    have hmem : t1 ∈ T := List.mem_reverse.mp (List.mem_of_find?_eq_some hfind)
    have hid : t1.id = t.id := by simpa using List.find?_some hfind
    have : t1 = t := List.inj_on_of_nodup_map hT hmem ht hid
    rw [this, Option.map_some']

/-- C9 (amended): provided the remote tombstones carry at most one entry
per id, a remote tombstone `(id, t_del)` puts the local account `l` held
under that id into `remote_deletions` exactly when `t_del >
l.last_modified`; when no local account carries the id, nothing with that
id is reported.  (With duplicate remote tombstone ids only the last listed
entry decides — see the counterexample.) -/
theorem remote_tombstone_deletions (L : List Account) (T_L : List Tombstone)
    (R : List Account) (T_R : List Tombstone) (w : Option Nat)
    (hTR : (T_R.map Tombstone.id).Nodup) :
    ∀ t ∈ T_R,
      (∀ l, lookupLastAccount L t.id = some l →
        (l ∈ (merge L T_L R T_R w).remote_deletions
          ↔ l.last_modified < t.deleted_at))
      ∧ (lookupLastAccount L t.id = none →
        ∀ l ∈ (merge L T_L R T_R w).remote_deletions, l.id ≠ t.id) := by
  intro t ht
  constructor
  · intro l hla
    have hid : l.id = t.id := lookupLastAccount_id L t.id l hla
    rw [mem_remote_deletions_iff]
    constructor
    · rintro ⟨_, _, d, htd, hlt⟩
      rw [hid, lookupLastTomb_of_mem_nodup T_R t hTR ht] at htd
      cases htd
      exact hlt
    · intro hlt
      refine ⟨?_, ?_, t.deleted_at, ?_, hlt⟩
      · rw [hid]; exact List.mem_map.mpr ⟨t, ht, rfl⟩
      · rw [hid]; exact hla
      · rw [hid]; exact lookupLastTomb_of_mem_nodup T_R t hTR ht
  · intro hnone l hl hid
    obtain ⟨_, hla, _⟩ := (mem_remote_deletions_iff L T_L R T_R w l).mp hl
    rw [hid, hnone] at hla
    exact absurd hla (by simp)

/-- Witness for C9 at the remote-deletion scenario of the sync.rs tests,
instantiated at the tombstone `(a1, 2000)` and the local account `a1`. -/
theorem remote_tombstone_deletions_witness :
    mkAcct "a1" "GitHub" 1000
        ∈ (merge [mkAcct "a1" "GitHub" 1000] [] [] [⟨"a1", 2000⟩]
            none).remote_deletions
      ↔ (mkAcct "a1" "GitHub" 1000).last_modified
          < (⟨"a1", 2000⟩ : Tombstone).deleted_at :=
  (remote_tombstone_deletions [mkAcct "a1" "GitHub" 1000] [] [] [⟨"a1", 2000⟩]
      none (by decide) ⟨"a1", 2000⟩ (by decide)).1
    (mkAcct "a1" "GitHub" 1000) (by decide)

/-- Counterexample to C9 as stated: the remote tombstone list carries
`(a1, 2000)` followed by `(a1, 500)`, and the local account `a1` has
`last_modified = 1000`.  The tombstone `(a1, 2000)` is strictly newer than
the local account, so the claim requires the account in
`remote_deletions`; the code's `HashMap` keeps only the last entry
`(a1, 500)`, which is older, so `remote_deletions` stays empty. -/
theorem remote_tombstone_deletions_cex :
    (⟨"a1", 2000⟩ : Tombstone) ∈ [(⟨"a1", 2000⟩ : Tombstone), ⟨"a1", 500⟩]
    ∧ lookupLastAccount [mkAcct "a1" "X" 1000] "a1" = some (mkAcct "a1" "X" 1000)
    ∧ 1000 < 2000
    ∧ (merge [mkAcct "a1" "X" 1000] [] [] [⟨"a1", 2000⟩, ⟨"a1", 500⟩]
        none).remote_deletions = [] := by decide

-- ═══════════════════════ Vault store (storage.rs) ═══════════════════════

/-- `TOMBSTONE_RETENTION_DAYS * 24 * 60 * 60` from `Storage::save`. -/
def retentionSecs : Nat := 90 * 24 * 60 * 60

/-- In-memory state of `storage.rs::Storage` (the key and data directory
play no role in the modelled operations). -/
structure StorageState where
  device_id : String
  accounts : List Account
  tombstones : List Tombstone
deriving DecidableEq, Repr

/-- The tombstone pruning performed at the top of `Storage::save`:
`retain(|t| t.deleted_at >= now_secs().saturating_sub(retention))`. -/
def pruneTombstones (now : Nat) (ts : List Tombstone) : List Tombstone :=
  ts.filter (fun t => now - retentionSecs ≤ t.deleted_at)

/-- `Storage::save` on the in-memory state: prune tombstones, then encrypt
and atomically write the file.  The file write is idealised as succeeding;
an I/O failure only produces the "Failed to save accounts" error and leaves
no partial state, which no claim below depends on. -/
def Storage.save (now : Nat) (s : StorageState) : Except String StorageState :=
  .ok { s with tombstones := pruneTombstones now s.tombstones }

/-- `Storage::add`: stamp `last_modified = now_secs()`, push, save. -/
def Storage.add (s : StorageState) (account : Account) (now : Nat) :
    Except String StorageState :=
  Storage.save now
    { s with accounts := s.accounts ++ [{ account with last_modified := now }] }

/-- `Storage::add_synced`: push preserving the timestamp, save. -/
def Storage.add_synced (s : StorageState) (account : Account) (now : Nat) :
    Except String StorageState :=
  Storage.save now { s with accounts := s.accounts ++ [account] }

/-- `Storage::delete`: push a tombstone `(id, now_secs())`, drop every
account with that id, save.  There is no "not found" check. -/
def Storage.delete (s : StorageState) (i : String) (now : Nat) :
    Except String StorageState :=
  Storage.save now
    { s with tombstones := s.tombstones ++ [⟨i, now⟩],
             accounts := s.accounts.filter (fun a => !(a.id == i)) }

/-- The in-place edit of `Storage::update`: `iter_mut().find(..)` modifies
the first account with the given id, or reports none. -/
def updateFirst (issuer label : String) (now : Nat) (i : String) :
    List Account → Option (List Account)
  | [] => none
  | a :: rest =>
    if a.id == i then
      some ({ a with issuer := issuer, label := label, last_modified := now } :: rest)
    else
      (updateFirst issuer label now i rest).map (a :: ·)

/-- `Storage::update`: edit issuer/label of the first account with the id,
stamp `last_modified`, save; "Account not found" when the id is absent. -/
def Storage.update (s : StorageState) (i issuer label : String) (now : Nat) :
    Except String StorageState :=
  match updateFirst issuer label now i s.accounts with
  | none => .error "Account not found"
  | some accounts2 => Storage.save now { s with accounts := accounts2 }

/-- The in-place overwrite of `Storage::replace_account`:
`position(|a| a.id == account.id)` then `accounts[pos] = account`. -/
def replaceFirst (account : Account) : List Account → Option (List Account)
  | [] => none
  | a :: rest =>
    if a.id == account.id then some (account :: rest)
    else (replaceFirst account rest).map (a :: ·)

/-- `Storage::replace_account`: overwrite the first account carrying the
incoming account's id, preserving order; error when absent. -/
def Storage.replace_account (s : StorageState) (account : Account) (now : Nat) :
    Except String StorageState :=
  match replaceFirst account s.accounts with
  | none => .error "Account not found"
  | some accounts2 => Storage.save now { s with accounts := accounts2 }

/-- `Storage::reorder`: matched ids first (first match per listed id, in the
listed order), then every account whose id was not mentioned, then save. -/
def Storage.reorder (s : StorageState) (ids : List String) (now : Nat) :
    Except String StorageState :=
  let reordered := ids.filterMap (fun i => s.accounts.find? (fun a => a.id == i))
  let rest := s.accounts.filter (fun a => !(ids.contains a.id))
  Storage.save now { s with accounts := reordered ++ rest }

/-- The spec §3 invariant: no id simultaneously has a live account and a
live tombstone. -/
def vaultInv (s : StorageState) : Prop :=
  ∀ a ∈ s.accounts, ∀ t ∈ s.tombstones, a.id ≠ t.id

instance (s : StorageState) : Decidable (vaultInv s) := by
  unfold vaultInv
  infer_instance

instance {α β : Type} [DecidableEq α] [DecidableEq β] :
    DecidableEq (Except α β) := fun x y =>
  match x, y with
  | .ok a, .ok b =>
    if h : a = b then isTrue (by rw [h])
    else isFalse (fun hc => h (by injection hc))
  | .error a, .error b =>
    if h : a = b then isTrue (by rw [h])
    else isFalse (fun hc => h (by injection hc))
  | .ok _, .error _ => isFalse (fun hc => Except.noConfusion hc)
  | .error _, .ok _ => isFalse (fun hc => Except.noConfusion hc)

/-- Pruning only removes tombstones. -/
theorem pruneTombstones_subset (now : Nat) (ts : List Tombstone) :
    ∀ t ∈ pruneTombstones now ts, t ∈ ts :=
  fun _ ht => (List.mem_filter.mp ht).1

/-- A kept tombstone survived the retention cutoff. -/
theorem pruneTombstones_kept (now : Nat) (ts : List Tombstone) :
    ∀ t ∈ pruneTombstones now ts, now - retentionSecs ≤ t.deleted_at := by
  intro t ht
  have := (List.mem_filter.mp ht).2
  simpa using this

/-- `updateFirst` only re-labels an existing account: every output id was
already present. -/
theorem updateFirst_ids (issuer label : String) (now : Nat) (i : String) :
    ∀ l l2, updateFirst issuer label now i l = some l2 →
      ∀ b ∈ l2, ∃ a ∈ l, b.id = a.id := by
  intro l
  induction l with
  | nil => intro l2 h; exact absurd h (by simp [updateFirst])
  | cons a rest ih =>
    intro l2 h b hb
    unfold updateFirst at h
    by_cases hid : (a.id == i) = true
    · rw [if_pos hid] at h
      cases h
      rcases List.mem_cons.mp hb with hba | hbr
      · exact ⟨a, List.mem_cons_self a rest, by rw [hba]⟩
      · exact ⟨b, List.mem_cons_of_mem a hbr, rfl⟩
    · rw [if_neg hid] at h
      cases hrec : updateFirst issuer label now i rest with
      | none => rw [hrec] at h; exact absurd h (by simp)
      | some l2r =>
        rw [hrec, Option.map_some'] at h
        cases h
        rcases List.mem_cons.mp hb with hba | hbr
        · exact ⟨a, List.mem_cons_self a rest, by rw [hba]⟩
        · obtain ⟨a0, ha0, hba0⟩ := ih l2r hrec b hbr
          exact ⟨a0, List.mem_cons_of_mem a ha0, hba0⟩

/-- `replaceFirst` overwrites an account that carried the same id: every
output id was already present. -/
theorem replaceFirst_ids (account : Account) :
    ∀ l l2, replaceFirst account l = some l2 →
      ∀ b ∈ l2, ∃ a ∈ l, b.id = a.id := by
  intro l
  induction l with
  | nil => intro l2 h; exact absurd h (by simp [replaceFirst])
  | cons a rest ih =>
    intro l2 h b hb
    unfold replaceFirst at h
    by_cases hid : (a.id == account.id) = true
    · rw [if_pos hid] at h
      cases h
      rcases List.mem_cons.mp hb with hba | hbr
      · refine ⟨a, List.mem_cons_self a rest, ?_⟩
        rw [hba]
        exact (beq_iff_eq.mp hid).symm
      · exact ⟨b, List.mem_cons_of_mem a hbr, rfl⟩
    · rw [if_neg hid] at h
      cases hrec : replaceFirst account rest with
      | none => rw [hrec] at h; exact absurd h (by simp)
      | some l2r =>
        rw [hrec, Option.map_some'] at h
        cases h
        rcases List.mem_cons.mp hb with hba | hbr
        · exact ⟨a, List.mem_cons_self a rest, by rw [hba]⟩
        · obtain ⟨a0, ha0, hba0⟩ := ih l2r hrec b hbr
          exact ⟨a0, List.mem_cons_of_mem a ha0, hba0⟩

/-- The invariant follows for any state whose account ids all come from an
invariant-satisfying state and whose tombstones are a subset of its. -/
theorem vaultInv_of_carried (s : StorageState) (d : String)
    (accounts2 : List Account) (ts2 : List Tombstone) (hinv : vaultInv s)
    (hacc : ∀ b ∈ accounts2, ∃ a ∈ s.accounts, b.id = a.id)
    (hts : ∀ t ∈ ts2, t ∈ s.tombstones) :
    vaultInv ⟨d, accounts2, ts2⟩ := by
  intro b hb t ht
  obtain ⟨a, ha, hba⟩ := hacc b hb
  rw [hba]
  exact hinv a ha t (hts t ht)

-- ═══════════════════════ Claim C3 ═══════════════════════

/-- C3 (amended): every public mutating vault operation preserves the
"never an account and a tombstone under the same id" invariant, except
that `add` and `add_synced` preserve it only when no tombstone carrying
the incoming account's id survives pruning at the operation's time —
neither operation removes a matching live tombstone (see the
counterexample). -/
theorem storage_ops_preserve_inv (s : StorageState) (now : Nat)
    (hinv : vaultInv s) :
    (∀ account s2,
        (∀ t ∈ s.tombstones, t.id = account.id → t.deleted_at < now - retentionSecs) →
        Storage.add s account now = .ok s2 → vaultInv s2)
    ∧ (∀ account s2,
        (∀ t ∈ s.tombstones, t.id = account.id → t.deleted_at < now - retentionSecs) →
        Storage.add_synced s account now = .ok s2 → vaultInv s2)
    ∧ (∀ account s2, Storage.replace_account s account now = .ok s2 → vaultInv s2)
    ∧ (∀ i issuer label s2, Storage.update s i issuer label now = .ok s2 → vaultInv s2)
    ∧ (∀ i s2, Storage.delete s i now = .ok s2 → vaultInv s2)
    ∧ (∀ ids s2, Storage.reorder s ids now = .ok s2 → vaultInv s2) := by
  refine ⟨?_, ?_, ?_, ?_, ?_, ?_⟩
  · intro account s2 hdead h
    cases h
    intro b hb t ht
    have htm := pruneTombstones_subset now s.tombstones t ht
    rcases List.mem_append.mp hb with hbl | hbr
    · exact hinv b hbl t htm
    · have hbid : b.id = account.id := by
        have : b = { account with last_modified := now } := by simpa using hbr
        rw [this]
      rw [hbid]
      intro hti
      exact absurd (pruneTombstones_kept now s.tombstones t ht)
        (Nat.not_le.mpr (hdead t htm hti.symm))
  · intro account s2 hdead h
    cases h
    intro b hb t ht
    have htm := pruneTombstones_subset now s.tombstones t ht
    rcases List.mem_append.mp hb with hbl | hbr
    · exact hinv b hbl t htm
    · have hbid : b = account := by simpa using hbr
      rw [hbid]
      intro hti
      exact absurd (pruneTombstones_kept now s.tombstones t ht)
        (Nat.not_le.mpr (hdead t htm hti.symm))
  · intro account s2 h
    unfold Storage.replace_account at h
    cases hrep : replaceFirst account s.accounts with
    | none => rw [hrep] at h; exact absurd h (by simp)
    | some accounts2 =>
      rw [hrep] at h
      cases h
      exact vaultInv_of_carried s s.device_id accounts2 _ hinv
        (replaceFirst_ids account s.accounts accounts2 hrep)
        (pruneTombstones_subset now s.tombstones)
  · intro i issuer label s2 h
    unfold Storage.update at h
    cases hupd : updateFirst issuer label now i s.accounts with
    | none => rw [hupd] at h; exact absurd h (by simp)
    | some accounts2 =>
      rw [hupd] at h
      cases h
      exact vaultInv_of_carried s s.device_id accounts2 _ hinv
        (updateFirst_ids issuer label now i s.accounts accounts2 hupd)
        (pruneTombstones_subset now s.tombstones)
  · intro i s2 h
    cases h
    intro b hb t ht
    have hbmem := List.mem_filter.mp hb
    have hbid : b.id ≠ i := by simpa using hbmem.2
    have htm := pruneTombstones_subset now _ t ht
    rcases List.mem_append.mp htm with htl | htr
    · exact hinv b hbmem.1 t htl
    · have : t = ⟨i, now⟩ := by simpa using htr
      rw [this]
      exact hbid
  · intro ids s2 h
    cases h
    refine vaultInv_of_carried s s.device_id _ _ hinv ?_
      (pruneTombstones_subset now s.tombstones)
    intro b hb
    rcases List.mem_append.mp hb with hbl | hbr
    · obtain ⟨i, _, hfind⟩ := List.mem_filterMap.mp hbl
      exact ⟨b, List.mem_of_find?_eq_some hfind, rfl⟩
    · exact ⟨b, (List.mem_filter.mp hbr).1, rfl⟩

/-- Witness for C3 on a one-account, one-stale-tombstone vault at
`now = 10^7` (the `(b, 5)` tombstone is past the 90-day retention). -/
theorem storage_ops_preserve_inv_witness :
    (∀ account s2,
        (∀ t ∈ (⟨"d", [mkAcct "a" "X" 100], [⟨"b", 5⟩]⟩ : StorageState).tombstones,
          t.id = account.id → t.deleted_at < 10000000 - retentionSecs) →
        Storage.add ⟨"d", [mkAcct "a" "X" 100], [⟨"b", 5⟩]⟩ account 10000000 = .ok s2 →
        vaultInv s2)
    ∧ (∀ account s2,
        (∀ t ∈ (⟨"d", [mkAcct "a" "X" 100], [⟨"b", 5⟩]⟩ : StorageState).tombstones,
          t.id = account.id → t.deleted_at < 10000000 - retentionSecs) →
        Storage.add_synced ⟨"d", [mkAcct "a" "X" 100], [⟨"b", 5⟩]⟩ account 10000000 = .ok s2 →
        vaultInv s2)
    ∧ (∀ account s2,
        Storage.replace_account ⟨"d", [mkAcct "a" "X" 100], [⟨"b", 5⟩]⟩ account 10000000 = .ok s2 →
        vaultInv s2)
    ∧ (∀ i issuer label s2,
        Storage.update ⟨"d", [mkAcct "a" "X" 100], [⟨"b", 5⟩]⟩ i issuer label 10000000 = .ok s2 →
        vaultInv s2)
    ∧ (∀ i s2,
        Storage.delete ⟨"d", [mkAcct "a" "X" 100], [⟨"b", 5⟩]⟩ i 10000000 = .ok s2 →
        vaultInv s2)
    ∧ (∀ ids s2,
        Storage.reorder ⟨"d", [mkAcct "a" "X" 100], [⟨"b", 5⟩]⟩ ids 10000000 = .ok s2 →
        vaultInv s2) :=
  storage_ops_preserve_inv ⟨"d", [mkAcct "a" "X" 100], [⟨"b", 5⟩]⟩ 10000000
    (by decide)

/-- Counterexample to C3 as stated: a vault holding only the live tombstone
`(a, 100)` satisfies the invariant, but `add` of an account with id `a` at
time 100 keeps both the account and the tombstone — `add` never removes a
matching tombstone. -/
theorem storage_add_inv_cex :
    vaultInv ⟨"d", [], [⟨"a", 100⟩]⟩
    ∧ Storage.add ⟨"d", [], [⟨"a", 100⟩]⟩ (mkAcct "a" "X" 0) 100
        = .ok ⟨"d", [mkAcct "a" "X" 100], [⟨"a", 100⟩]⟩
    ∧ ¬ vaultInv ⟨"d", [mkAcct "a" "X" 100], [⟨"a", 100⟩]⟩ := by
  refine ⟨by decide, by decide, ?_⟩
  intro hinv
  exact absurd (hinv (mkAcct "a" "X" 100) (by decide) ⟨"a", 100⟩ (by decide))
    (by decide)

-- ═══════════════════════ Claim C10 ═══════════════════════

/-- C10: deleting an id that no stored account carries still succeeds —
there is no "Account not found" check — leaves the account list unchanged,
and appends the tombstone `(id, now)`; like every save, it also drops
tombstones past the 90-day retention. -/
theorem delete_missing_id_ok (s : StorageState) (i : String) (now : Nat)
    (h : ∀ a ∈ s.accounts, a.id ≠ i) :
    Storage.delete s i now
      = .ok ⟨s.device_id, s.accounts,
             pruneTombstones now s.tombstones ++ [⟨i, now⟩]⟩ := by
  unfold Storage.delete Storage.save
  have hacc : s.accounts.filter (fun a => !(a.id == i)) = s.accounts := by
    rw [List.filter_eq_self]
    intro a ha
    simpa using h a ha
  have hts : pruneTombstones now (s.tombstones ++ [⟨i, now⟩])
      = pruneTombstones now s.tombstones ++ [⟨i, now⟩] := by
    unfold pruneTombstones
    rw [List.filter_append]
    simp [Nat.sub_le]
  rw [hacc, hts]

/-- Witness for C10: deleting the absent id `missing` from a one-account
vault appends `(missing, 1000)` and touches nothing else. -/
theorem delete_missing_id_ok_witness :
    Storage.delete ⟨"d", [mkAcct "b" "X" 100], [⟨"old", 5⟩]⟩ "missing" 1000
      = .ok ⟨"d", [mkAcct "b" "X" 100],
             pruneTombstones 1000 [⟨"old", 5⟩] ++ [⟨"missing", 1000⟩]⟩ :=
  delete_missing_id_ok ⟨"d", [mkAcct "b" "X" 100], [⟨"old", 5⟩]⟩ "missing" 1000
    (by decide)

-- ═══════════ Vault open (storage.rs load_payload) and Claim C4 ═══════════

/-- What `Storage::load_payload` does to the on-disk file: leave it in
place, or rename it to the `.bak` path. -/
inductive FsEffect where
  | keep : FsEffect
  | renameToBak : FsEffect
deriving DecidableEq, Repr

/-- `storage.rs::load_payload`, lines 167–214, with the byte-level
primitives abstracted: `decrypt nonce ct` is AES-256-GCM under the vault
key (`none` = tag failure), `parsePayload` parses the versioned
`StoragePayload` JSON (on success the serde defaults already supply a fresh
device id and empty tombstones where missing), `parseLegacy` parses the
legacy `Vec<Account>` JSON, and `freshId` stands for `generate_device_id()`.
`file` is the content of `accounts.enc`, `none` when the file is absent.
The second component of the result records what happened to the file. -/
def load_payload (decrypt : List Nat → List Nat → Option (List Nat))
    (parsePayload : List Nat → Option (String × List Account × List Tombstone))
    (parseLegacy : List Nat → Option (List Account))
    (freshId : String) (file : Option (List Nat)) :
    Except String ((String × List Account × List Tombstone) × FsEffect) :=
  match file with
  | none => .ok ((freshId, [], []), .keep)
  | some data =>
    if data.length < 12 then .ok ((freshId, [], []), .keep)
    else
      match decrypt (data.take 12) (data.drop 12) with
      | none => .ok ((freshId, [], []), .renameToBak)
      | some plaintext =>
        match parsePayload plaintext with
        | some p => .ok (p, .keep)
        | none =>
          match parseLegacy plaintext with
          | some accounts => .ok ((freshId, accounts, []), .keep)
          | none => .error "Failed to load accounts"

/-- C4 (amended): a stored file shorter than 12 bytes yields an empty store
with a fresh device id and **no** error, but the file is left in place —
only the AEAD-failure path renames it; content of at least 12 bytes that
fails AEAD decryption yields an empty store with a fresh device id, no
error, and the original renamed to the `.bak` path. -/
theorem load_payload_recovery
    (decrypt : List Nat → List Nat → Option (List Nat))
    (parsePayload : List Nat → Option (String × List Account × List Tombstone))
    (parseLegacy : List Nat → Option (List Account)) (freshId : String) :
    (∀ data : List Nat, data.length < 12 →
        load_payload decrypt parsePayload parseLegacy freshId (some data)
          = .ok ((freshId, [], []), .keep))
    ∧ (∀ data : List Nat, 12 ≤ data.length →
        decrypt (data.take 12) (data.drop 12) = none →
        load_payload decrypt parsePayload parseLegacy freshId (some data)
          = .ok ((freshId, [], []), .renameToBak)) := by
  constructor
  · intro data hlen
    unfold load_payload
    simp only []
    rw [if_pos hlen]
  · intro data hlen hdec
    unfold load_payload
    simp only []
    rw [if_neg (Nat.not_lt.mpr hlen), hdec]

/-- Witness for C4: a 3-byte file and a 12-byte undecryptable file. -/
theorem load_payload_recovery_witness :
    load_payload (fun _ _ => none) (fun _ => none) (fun _ => none) "fresh"
        (some [0, 0, 0]) = .ok (("fresh", [], []), .keep)
    ∧ load_payload (fun _ _ => none) (fun _ => none) (fun _ => none) "fresh"
        (some [0, 0, 0, 0, 0, 0, 0, 0, 0, 0, 0, 0])
        = .ok (("fresh", [], []), .renameToBak) :=
  ⟨(load_payload_recovery (fun _ _ => none) (fun _ => none) (fun _ => none)
      "fresh").1 [0, 0, 0] (by decide),
   (load_payload_recovery (fun _ _ => none) (fun _ => none) (fun _ => none)
      "fresh").2 [0, 0, 0, 0, 0, 0, 0, 0, 0, 0, 0, 0] (by decide) (by decide)⟩

/-- Counterexample to C4 as stated: on a 3-byte (< 12) file the code
returns the empty store with the file left in place — it is **not** renamed
to the `.bak` path as the claim asserts. -/
theorem load_payload_short_cex :
    load_payload (fun _ _ => none) (fun _ => none) (fun _ => none) "fresh"
        (some [0, 0, 0]) = .ok (("fresh", [], []), .keep)
    ∧ ¬ load_payload (fun _ _ => none) (fun _ => none) (fun _ => none) "fresh"
        (some [0, 0, 0]) = .ok (("fresh", [], []), .renameToBak) := by
  constructor
  · rfl
  · intro h
    have : FsEffect.keep = FsEffect.renameToBak := by
      have h2 : (Except.ok ((("fresh" : String), ([] : List Account),
          ([] : List Tombstone)), FsEffect.keep) :
          Except String ((String × List Account × List Tombstone) × FsEffect))
          = .ok ((("fresh" : String), ([] : List Account),
              ([] : List Tombstone)), FsEffect.renameToBak) := h
      injection h2 with h3
      exact congrArg Prod.snd h3
    exact FsEffect.noConfusion this

-- ═══════════════════════ Backup codec (backup.rs) ═══════════════════════

/-- UTF-8 byte length of a password, as Rust's `str::len` measures it. -/
def utf8Len (s : List Char) : Nat := (s.map Char.utf8Size).sum

/-- Every character occupies at least one UTF-8 byte. -/
theorem length_le_utf8Len (s : List Char) : s.length ≤ utf8Len s := by
  induction s with
  | nil => simp [utf8Len]
  | cons c rest ih =>
    simp only [utf8Len, List.map_cons, List.sum_cons, List.length_cons]
    have hc : 1 ≤ c.utf8Size := Char.utf8Size_pos c
    simp only [utf8Len] at ih
    omega

/-- `backup.rs` `BackupPayload`: the JSON value sealed inside a backup. -/
structure BackupPayload where
  version : Nat
  exported_at : Nat
  accounts : List Account
deriving DecidableEq, Repr

/-- The cryptographic and serialization primitives `backup.rs` calls,
abstracted: `derive_key` is Argon2id(password, salt), `encrypt`/`decrypt`
are AES-256-GCM seal/open (ciphertext carries the 16-byte tag;
`none` = tag failure), and the serializer pair is serde_json on
`BackupPayload`.  Theorems assume of them only pointwise functional
properties that the real primitives have. -/
structure BackupPrims where
  derive_key : List Char → List Nat → List Nat
  encrypt : List Nat → List Nat → List Nat → List Nat
  decrypt : List Nat → List Nat → List Nat → Option (List Nat)
  serializePayload : BackupPayload → List Nat
  deserializePayload : List Nat → Option BackupPayload

/-- `b"GHST"`. -/
def MAGIC : List Nat := [71, 72, 83, 84]

/-- `backup.rs::export_accounts`, lines 44–89.  The randomly drawn
`salt(16)` and `nonce(12)` and the `exported_at` clock reading are passed
explicitly.  Output layout: `MAGIC ‖ version ‖ salt ‖ nonce ‖ ciphertext`. -/
def export_accounts (P : BackupPrims) (accounts : List Account)
    (password : List Char) (salt nonce : List Nat) (exported_at : Nat) :
    Except String (List Nat) :=
  if utf8Len password < 8 then
    .error "Backup password must be at least 8 characters"
  else
    .ok (MAGIC ++ [1] ++ salt ++ nonce
      ++ P.encrypt (P.derive_key password salt) nonce
           (P.serializePayload ⟨1, exported_at, accounts⟩))

/-- `backup.rs::import_accounts`, lines 92–131: length, magic and version
guards, then field extraction at fixed offsets, key derivation from the
embedded salt, AEAD open, JSON parse. -/
def import_accounts (P : BackupPrims) (data : List Nat)
    (password : List Char) : Except String (List Account) :=
  if data.length < 49 then
    .error "File is too small to be a valid backup"
  else if data.take 4 ≠ MAGIC then
    .error "Not a Ghost Auth backup file"
  else if data.get? 4 ≠ some 1 then
    .error "Unsupported backup version"
  else
    let salt := (data.drop 5).take 16
    let nonce := (data.drop 21).take 12
    let ciphertext := data.drop 33
    match P.decrypt (P.derive_key password salt) nonce ciphertext with
    | none => .error "Decryption failed — wrong password or corrupted file"
    | some plaintext =>
      match P.deserializePayload plaintext with
      | none => .error "Invalid backup data"
      | some payload => .ok payload.accounts

-- ═══════════════════════ Claim C2 ═══════════════════════

/-- C2: the backup round-trip.  For any account list and any password of at
least 8 characters, importing an export with the same password succeeds
and returns the accounts unchanged, field for field.  The hypotheses state
the defining properties of the abstracted primitives at the point of use:
AES-256-GCM produces a ciphertext at least a tag (16 bytes) long, opening
a sealed ciphertext under the same key and nonce returns the plaintext,
and serde round-trips the payload. -/
theorem backup_roundtrip (P : BackupPrims) (A : List Account) (pw : List Char)
    (salt nonce : List Nat) (ts : Nat)
    (hsalt : salt.length = 16) (hnonce : nonce.length = 12)
    (hpw : 8 ≤ pw.length)
    (hlen : 16 ≤ (P.encrypt (P.derive_key pw salt) nonce
        (P.serializePayload ⟨1, ts, A⟩)).length)
    (hdec : P.decrypt (P.derive_key pw salt) nonce
        (P.encrypt (P.derive_key pw salt) nonce (P.serializePayload ⟨1, ts, A⟩))
        = some (P.serializePayload ⟨1, ts, A⟩))
    (hser : P.deserializePayload (P.serializePayload ⟨1, ts, A⟩)
        = some ⟨1, ts, A⟩) :
    ∃ out, export_accounts P A pw salt nonce ts = .ok out
      ∧ import_accounts P out pw = .ok A := by
  have hpwb : ¬ utf8Len pw < 8 :=
    Nat.not_lt.mpr (le_trans hpw (length_le_utf8Len pw))
  generalize hct : P.encrypt (P.derive_key pw salt) nonce
      (P.serializePayload ⟨1, ts, A⟩) = ct at hlen hdec
  refine ⟨MAGIC ++ [1] ++ salt ++ nonce ++ ct, ?_, ?_⟩
  · unfold export_accounts
    rw [if_neg hpwb, hct]
  · have hform : MAGIC ++ [1] ++ salt ++ nonce ++ ct
        = 71 :: 72 :: 83 :: 84 :: 1 :: (salt ++ (nonce ++ ct)) := by
      simp [MAGIC]
    have hlentot : (MAGIC ++ [1] ++ salt ++ nonce ++ ct).length = 33 + ct.length := by
      rw [hform]
      simp [List.length_append, hsalt, hnonce]
      omega
    have hlen49 : ¬ (MAGIC ++ [1] ++ salt ++ nonce ++ ct).length < 49 := by
      rw [hlentot]
      omega
    have htake4 : (MAGIC ++ [1] ++ salt ++ nonce ++ ct).take 4 = MAGIC := by
      rw [hform]; rfl
    have hget4 : (MAGIC ++ [1] ++ salt ++ nonce ++ ct).get? 4 = some 1 := by
      rw [hform]; rfl
    have hdrop5 : (MAGIC ++ [1] ++ salt ++ nonce ++ ct).drop 5
        = salt ++ (nonce ++ ct) := by
      rw [hform]; rfl
    have hsaltx : ((MAGIC ++ [1] ++ salt ++ nonce ++ ct).drop 5).take 16 = salt := by
      rw [hdrop5]; exact List.take_left' hsalt
    have hdrop21 : (MAGIC ++ [1] ++ salt ++ nonce ++ ct).drop 21 = nonce ++ ct := by
      have h2 : (MAGIC ++ [1] ++ salt ++ nonce ++ ct).drop 21
          = ((MAGIC ++ [1] ++ salt ++ nonce ++ ct).drop 5).drop 16 := by
        rw [List.drop_drop]
      rw [h2, hdrop5]
      exact List.drop_left' hsalt
    have hnoncex : ((MAGIC ++ [1] ++ salt ++ nonce ++ ct).drop 21).take 12 = nonce := by
      rw [hdrop21]; exact List.take_left' hnonce
    have hdrop33 : (MAGIC ++ [1] ++ salt ++ nonce ++ ct).drop 33 = ct := by
      have h2 : (MAGIC ++ [1] ++ salt ++ nonce ++ ct).drop 33
          = ((MAGIC ++ [1] ++ salt ++ nonce ++ ct).drop 21).drop 12 := by
        rw [List.drop_drop]
      rw [h2, hdrop21]
      exact List.drop_left' hnonce
    unfold import_accounts
    rw [if_neg hlen49, if_neg (not_not_intro htake4), if_neg (not_not_intro hget4)]
    simp only [hsaltx, hnoncex, hdrop33, hdec, hser]

/-- The two accounts of the backup.rs round-trip test. -/
def sampleAccounts : List Account :=
  [{ id := "1", issuer := "GitHub", label := "user@test.com",
     secret := "JBSWY3DPEHPK3PXP", algorithm := "SHA1", digits := 6,
     period := 30, icon := none, last_modified := 0 },
   { id := "2", issuer := "Google", label := "me@gmail.com",
     secret := "GEZDGNBVGY3TQOJQ", algorithm := "SHA256", digits := 8,
     period := 30, icon := some "google", last_modified := 0 }]

/-- A concrete instantiation of the abstract primitives satisfying, at the
sample payload, the pointwise properties the round-trip theorem assumes:
the "cipher" appends a 16-byte tag of zeroes and opening checks it. -/
def toyPrims : BackupPrims where
  derive_key := fun _ _ => []
  encrypt := fun _ _ pt => pt ++ List.replicate 16 0
  decrypt := fun _ _ ct =>
    if ct.drop (ct.length - 16) = List.replicate 16 0 ∧ 16 ≤ ct.length then
      some (ct.take (ct.length - 16))
    else none
  serializePayload := fun _ => []
  deserializePayload := fun _ => some ⟨1, 0, sampleAccounts⟩

example :
    (export_accounts toyPrims sampleAccounts
      ['p', 'a', 's', 's', 'w', 'o', 'r', 'd'] (List.replicate 16 0)
      (List.replicate 12 0) 0).toOption.bind
        (fun out => (import_accounts toyPrims out
          ['p', 'a', 's', 's', 'w', 'o', 'r', 'd']).toOption)
      = some sampleAccounts := by decide

/-- Witness for C2 with the toy primitives at the sample accounts. -/
theorem backup_roundtrip_witness :
    ∃ out, export_accounts toyPrims sampleAccounts
        ['p', 'a', 's', 's', 'w', 'o', 'r', 'd'] (List.replicate 16 0)
        (List.replicate 12 0) 0 = .ok out
      ∧ import_accounts toyPrims out ['p', 'a', 's', 's', 'w', 'o', 'r', 'd']
          = .ok sampleAccounts :=
  backup_roundtrip toyPrims sampleAccounts
    ['p', 'a', 's', 's', 'w', 'o', 'r', 'd'] (List.replicate 16 0)
    (List.replicate 12 0) 0 (by decide) (by decide) (by decide) (by decide)
    (by decide) (by decide)

-- ═══════════════════════ Claim C5 ═══════════════════════

/-- C5: `import_accounts` rejects — with an error and before any
cryptography — every input that is shorter than 49 bytes, or whose first
four bytes are not `"GHST"`, or whose version byte is not 1.  The result
coincides for *any* choice of key-derivation/decryption/parsing primitives
and any password, which is the observable form of "no decryption is
attempted". -/
theorem import_rejects_bad_header (P P2 : BackupPrims) (data : List Nat)
    (pw pw2 : List Char)
    (h : data.length < 49 ∨ data.take 4 ≠ MAGIC ∨ data.get? 4 ≠ some 1) :
    (∃ e, import_accounts P data pw = .error e)
    ∧ import_accounts P data pw = import_accounts P2 data pw2 := by
  unfold import_accounts
  by_cases h1 : data.length < 49
  · rw [if_pos h1, if_pos h1]
    exact ⟨⟨_, rfl⟩, rfl⟩
  · rw [if_neg h1, if_neg h1]
    by_cases h2 : data.take 4 = MAGIC
    · have h3 : data.get? 4 ≠ some 1 := by tauto
      rw [if_neg (not_not_intro h2), if_neg (not_not_intro h2), if_pos h3, if_pos h3]
      exact ⟨⟨_, rfl⟩, rfl⟩
    · rw [if_pos h2, if_pos h2]
      exact ⟨⟨_, rfl⟩, rfl⟩

/-- Witness for C5 on a 50-byte input whose magic is wrong. -/
theorem import_rejects_bad_header_witness :
    (∃ e, import_accounts toyPrims (List.replicate 50 0)
        ['p', 'a', 's', 's', 'w', 'o', 'r', 'd'] = .error e)
    ∧ import_accounts toyPrims (List.replicate 50 0)
        ['p', 'a', 's', 's', 'w', 'o', 'r', 'd']
      = import_accounts
          { derive_key := fun _ _ => [1], encrypt := fun _ _ pt => pt,
            decrypt := fun _ _ _ => some [], serializePayload := fun _ => [],
            deserializePayload := fun _ => none }
          (List.replicate 50 0) ['x'] :=
  import_rejects_bad_header toyPrims
    { derive_key := fun _ _ => [1], encrypt := fun _ _ pt => pt,
      decrypt := fun _ _ _ => some [], serializePayload := fun _ => [],
      deserializePayload := fun _ => none }
    (List.replicate 50 0) ['p', 'a', 's', 's', 'w', 'o', 'r', 'd'] ['x']
    (by decide)

-- ═══════════════════════ Claim C6 ═══════════════════════

/-- C6 (amended): `export_accounts` fails exactly when the UTF-8 encoding
of the password is shorter than 8 bytes (Rust's `password.len()` counts
bytes, not characters), and the failure is the "at least 8 characters"
error; since every character occupies at least one byte, any password of
at least 8 characters passes the length check. -/
theorem export_password_length_check (P : BackupPrims) (A : List Account)
    (pw : List Char) (salt nonce : List Nat) (ts : Nat) :
    (export_accounts P A pw salt nonce ts
        = .error "Backup password must be at least 8 characters"
      ↔ utf8Len pw < 8)
    ∧ (8 ≤ pw.length → ∃ out, export_accounts P A pw salt nonce ts = .ok out) := by
  constructor
  · unfold export_accounts
    by_cases h : utf8Len pw < 8
    · rw [if_pos h]
      exact ⟨fun _ => h, fun _ => rfl⟩
    · rw [if_neg h]
      exact ⟨fun hc => Except.noConfusion hc, fun hl => absurd hl h⟩
  · intro hpw
    unfold export_accounts
    rw [if_neg (Nat.not_lt.mpr (le_trans hpw (length_le_utf8Len pw)))]
    exact ⟨_, rfl⟩

/-- Witness for C6 at an 8-character ASCII password. -/
theorem export_password_length_check_witness :
    (export_accounts toyPrims sampleAccounts
        ['p', 'a', 's', 's', 'w', 'o', 'r', 'd'] (List.replicate 16 0)
        (List.replicate 12 0) 0
        = .error "Backup password must be at least 8 characters"
      ↔ utf8Len ['p', 'a', 's', 's', 'w', 'o', 'r', 'd'] < 8)
    ∧ (8 ≤ (['p', 'a', 's', 's', 'w', 'o', 'r', 'd'] : List Char).length →
        ∃ out, export_accounts toyPrims sampleAccounts
          ['p', 'a', 's', 's', 'w', 'o', 'r', 'd'] (List.replicate 16 0)
          (List.replicate 12 0) 0 = .ok out) :=
  export_password_length_check toyPrims sampleAccounts
    ['p', 'a', 's', 's', 'w', 'o', 'r', 'd'] (List.replicate 16 0)
    (List.replicate 12 0) 0

/-- Counterexample to C6 as stated: the four-character password `éééé`
encodes to 8 UTF-8 bytes, so `password.len() < 8` is false and the export
succeeds, although the claim requires an error for every password shorter
than 8 characters. -/
theorem export_short_password_cex :
    (['é', 'é', 'é', 'é'] : List Char).length < 8
    ∧ export_accounts toyPrims [] ['é', 'é', 'é', 'é'] (List.replicate 16 0)
        (List.replicate 12 0) 0
      = .ok (MAGIC ++ [1] ++ List.replicate 16 0 ++ List.replicate 12 0
          ++ List.replicate 16 0) := by decide

-- ═══════════════ Sync code key derivation (sync.rs) ═══════════════

/-- `CODE_CHARS`: the unambiguous sync-code alphabet (no 0/O, 1/I/L), held
by the Rust code as the byte slice `b"ABCDEFGHJKMNPQRSTUVWXYZ23456789"`. -/
def CODE_CHARS : List Nat :=
  "ABCDEFGHJKMNPQRSTUVWXYZ23456789".toList.map Char.toNat

/-- Rust's `char::is_whitespace`: the Unicode `White_Space` property,
which is exactly these 25 code points (beyond ASCII whitespace it
includes U+0085, U+00A0 NO-BREAK SPACE, U+1680, U+2000–U+200A,
U+2028, U+2029, U+202F, U+205F and U+3000 IDEOGRAPHIC SPACE). -/
def isUnicodeWhitespace (c : Char) : Bool :=
  [0x0009, 0x000A, 0x000B, 0x000C, 0x000D, 0x0020, 0x0085, 0x00A0, 0x1680,
   0x2000, 0x2001, 0x2002, 0x2003, 0x2004, 0x2005, 0x2006, 0x2007, 0x2008,
   0x2009, 0x200A, 0x2028, 0x2029, 0x202F, 0x205F, 0x3000].contains c.toNat

/-- A character the canonicalisation strips — the negation of the filter
`!c.is_whitespace() && *c != '-'`. -/
def isJunk (c : Char) : Bool := isUnicodeWhitespace c || c == '-'

/-- UTF-8 encoding of one scalar value, byte for byte as Rust's
`str::as_bytes` and `str::len` see it. -/
def utf8EncodeChar (c : Char) : List Nat :=
  let n := c.toNat
  if n < 0x80 then [n]
  else if n < 0x800 then [0xC0 + n / 0x40, 0x80 + n % 0x40]
  else if n < 0x10000 then
    [0xE0 + n / 0x1000, 0x80 + n / 0x40 % 0x40, 0x80 + n % 0x40]
  else
    [0xF0 + n / 0x40000, 0x80 + n / 0x1000 % 0x40, 0x80 + n / 0x40 % 0x40,
     0x80 + n % 0x40]

/-- The UTF-8 bytes of a string. -/
def utf8Encode (s : List Char) : List Nat := (s.map utf8EncodeChar).flatten

/-- The canonical form `SyncSession::key_from_code` computes first: strip
hyphens and whitespace, then `str::to_uppercase`.  Rust's `to_uppercase`
concatenates the full-Unicode uppercase expansion `char::to_uppercase` of
each character (one to three characters each; `ß` expands to `SS`).  That
per-character mapping — a large Unicode table — is the parameter `up`;
every theorem below is proved for an arbitrary `up`, so it holds in
particular for the real table. -/
def canon (up : Char → List Char) (code : List Char) : List Char :=
  ((code.filter (fun c => !(isJunk c))).map up).flatten

/-- `sync.rs::SyncSession::key_from_code`, lines 76–109: strip and
uppercase, guard `clean.len()` — the UTF-8 **byte** length — against 4·6,
check every byte of `clean.bytes()` against the alphabet, then derive the
key by HMAC-SHA256 over `clean.as_bytes()`, abstracted as `hm`. -/
def key_from_code (up : Char → List Char) (hm : List Nat → List Nat)
    (code : List Char) : Except String (List Nat) :=
  let bytes := utf8Encode (canon up code)
  if bytes.length ≠ 4 * 6 then
    .error "Invalid sync code length"
  else
    match bytes.find? (fun b => !(CODE_CHARS.contains b)) with
    | some _ => .error "Invalid character in sync code"
    | none => .ok (hm bytes)

/-- Derivability of one code string from another by the edits claim C7
names: inserting or removing hyphens and (Unicode) whitespace, and
replacing a character by one with the same uppercase expansion — the exact
extent of the case-insensitivity the code provides.  It covers `a`↔`A`
across the whole ASCII range and also pairs like `ſ`↔`s` (both uppercase
to `S`); the counterexample below shows a case pair outside it. -/
inductive FormatRel (up : Char → List Char) : List Char → List Char → Prop where
  | nil : FormatRel up [] []
  | cons (a b : Char) (as bs : List Char) (ha : isJunk a = false)
      (hb : isJunk b = false) (hab : up a = up b)
      (h : FormatRel up as bs) : FormatRel up (a :: as) (b :: bs)
  | junkL (a : Char) (as bs : List Char) (ha : isJunk a = true)
      (h : FormatRel up as bs) : FormatRel up (a :: as) bs
  | junkR (b : Char) (as bs : List Char) (hb : isJunk b = true)
      (h : FormatRel up as bs) : FormatRel up as (b :: bs)

/-- A stripped character does not change the canonical form. -/
theorem canon_cons_junk (up : Char → List Char) (a : Char) (as : List Char)
    (ha : isJunk a = true) : canon up (a :: as) = canon up as := by
  unfold canon
  rw [List.filter_cons]
  simp [ha]

/-- A kept character contributes its uppercase expansion. -/
theorem canon_cons_kept (up : Char → List Char) (a : Char) (as : List Char)
    (ha : isJunk a = false) : canon up (a :: as) = up a ++ canon up as := by
  unfold canon
  rw [List.filter_cons]
  simp [ha]

/-- Format edits preserve the canonical form. -/
theorem canon_eq_of_formatRel (up : Char → List Char) (c c' : List Char)
    (h : FormatRel up c c') : canon up c = canon up c' := by
  induction h with
  | nil => rfl
  | cons a b as bs ha hb hab h ih =>
    rw [canon_cons_kept up a as ha, canon_cons_kept up b bs hb, hab, ih]
  | junkL a as bs ha h ih => rw [canon_cons_junk up a as ha, ih]
  | junkR b as bs hb h ih => rw [canon_cons_junk up b bs hb, ih]

-- ═══════════════════════ Claim C7 ═══════════════════════

/-- C7 (amended): for any per-character uppercase table `up` and any
derivation function, `key_from_code` is unchanged under inserting or
removing hyphens and Unicode whitespace and under replacing characters by
ones with the same uppercase expansion — the actual extent of its
case-insensitivity (the counterexample exhibits a case pair outside it);
and it returns an error exactly when the canonical form is not 24 UTF-8
bytes long or contains a byte outside the alphabet
`ABCDEFGHJKMNPQRSTUVWXYZ23456789`. -/
theorem key_from_code_spec (up : Char → List Char) (hm : List Nat → List Nat) :
    (∀ c c', FormatRel up c c' →
        key_from_code up hm c = key_from_code up hm c')
    ∧ (∀ c, (∃ e, key_from_code up hm c = .error e)
        ↔ ((utf8Encode (canon up c)).length ≠ 24
            ∨ ∃ b ∈ utf8Encode (canon up c), b ∉ CODE_CHARS)) := by
  constructor
  · intro c c' h
    unfold key_from_code
    rw [canon_eq_of_formatRel up c c' h]
  · intro c
    unfold key_from_code
    by_cases hlen : (utf8Encode (canon up c)).length = 4 * 6
    · rw [if_neg (not_not_intro hlen)]
      cases hfind : (utf8Encode (canon up c)).find?
          (fun b => !(CODE_CHARS.contains b)) with
      | some b =>
        constructor
        · intro _
          refine Or.inr ⟨b, List.mem_of_find?_eq_some hfind, ?_⟩
          have := List.find?_some hfind
          simpa using this
        · intro _
          exact ⟨"Invalid character in sync code", rfl⟩
      | none =>
        rw [List.find?_eq_none] at hfind
        constructor
        · rintro ⟨e, he⟩
          exact Except.noConfusion he
        · rintro (hl | ⟨b, hmem, hb⟩)
          · exact absurd hlen hl
          · have := hfind b hmem
            simp at this
            exact absurd this hb
    · rw [if_pos hlen]
      constructor
      · intro _
        exact Or.inl hlen
      · intro _
        exact ⟨"Invalid sync code length", rfl⟩

/-- Witness for C7 with the ASCII fragment of the uppercase table (on
which the full table agrees): a lowercase code with hyphens and a NO-BREAK
SPACE separator derives the same key as its canonical form, and the
spec's scenario-5 code ending in `1` is rejected. -/
theorem key_from_code_spec_witness :
    key_from_code (fun c => [c.toUpper]) (fun b => b)
        "abcd efgh-jkmn-pqrs-tuvw-xy23".toList
      = key_from_code (fun c => [c.toUpper]) (fun b => b)
          "ABCDEFGHJKMNPQRSTUVWXY23".toList
    ∧ (∃ e, key_from_code (fun c => [c.toUpper]) (fun b => b)
        "ZZZZ-ZZZZ-ZZZZ-ZZZZ-ZZZZ-ZZZ1".toList = .error e) :=
  ⟨(key_from_code_spec (fun c => [c.toUpper]) (fun b => b)).1
      "abcd efgh-jkmn-pqrs-tuvw-xy23".toList
      "ABCDEFGHJKMNPQRSTUVWXY23".toList
      (by
        show FormatRel (fun c => [c.toUpper])
          ('a' :: 'b' :: 'c' :: 'd' :: ' ' :: 'e' :: 'f' :: 'g' :: 'h' ::
           '-' :: 'j' :: 'k' :: 'm' :: 'n' :: '-' :: 'p' :: 'q' :: 'r' :: 's' ::
           '-' :: 't' :: 'u' :: 'v' :: 'w' :: '-' :: 'x' :: 'y' :: '2' :: '3' :: [])
          ('A' :: 'B' :: 'C' :: 'D' :: 'E' :: 'F' :: 'G' :: 'H' :: 'J' :: 'K' ::
           'M' :: 'N' :: 'P' :: 'Q' :: 'R' :: 'S' :: 'T' :: 'U' :: 'V' :: 'W' ::
           'X' :: 'Y' :: '2' :: '3' :: [])
        repeat first
          | exact FormatRel.nil
          | refine FormatRel.junkL _ _ _ (by decide) ?_
          | refine FormatRel.cons _ _ _ _ (by decide) (by decide) (by decide) ?_),
   ((key_from_code_spec (fun c => [c.toUpper]) (fun b => b)).2
      "ZZZZ-ZZZZ-ZZZZ-ZZZZ-ZZZZ-ZZZ1".toList).mpr (by decide)⟩

/-- Rust's `char::to_uppercase`, written out on the characters appearing
in the counterexample below: ASCII maps through ASCII uppercase (the full
Unicode table agrees on ASCII), `ß` (U+00DF) expands to `SS` (Unicode
SpecialCasing.txt), and `ẞ` (U+1E9E, LATIN CAPITAL LETTER SHARP S — the
uppercase form of `ß`) is already uppercase and maps to itself
(UnicodeData.txt gives U+1E9E no uppercase mapping). -/
def upSample (c : Char) : List Char :=
  if c == 'ß' then ['S', 'S'] else [c.toUpper]

/-- Counterexample to C7 as stated: changing the letter case of the last
character of a code — the lowercase `ß` against its uppercase form `ẞ` —
changes the result.  After 22 `A`s, `ß` uppercases to `SS`, giving 24
alphabet bytes: the code is accepted and a key is derived.  Its case
variant `ẞ` stays `ẞ` (three UTF-8 bytes, 25 in total): the code is
rejected.  So `key_from_code` is not insensitive to every letter-case
change. -/
theorem key_from_code_case_cex :
    key_from_code upSample (fun b => b)
        ("AAAAAAAAAAAAAAAAAAAAAA".toList ++ ['ß'])
      = .ok (List.replicate 22 65 ++ [83, 83])
    ∧ key_from_code upSample (fun b => b)
        ("AAAAAAAAAAAAAAAAAAAAAA".toList ++ ['ẞ'])
      = .error "Invalid sync code length" := by decide
